import Mathlib

/-!
# Verification of the markdown block scanner and inline normalizer of `md_converter.py`

This file gives a shallow embedding of the core of the repository
(`parse_md`, `_parse_table_row`, `_is_special_line`, `strip_inline_md`)
and proves or refutes the frozen claims about it.

Conventions of the embedding:

* A source line is a `List Char`; the whole document is a `List Char` that
  is split on `'\n'` exactly as Python's `text.split("\n")` does
  (`splitOnChar`), so an empty document yields the single empty line.
* Python's whitespace (for `str.strip`, truthiness of stripped lines and
  the regex class `\s`) is modelled by `isPySpace`, covering the six ASCII
  whitespace characters; Python additionally treats some rare Unicode
  code points as whitespace, which no claim depends on.
* Each regular expression of the source is modelled by an executable
  function on `List Char` that reproduces the regex's backtracking
  semantics on the pattern in question; the derivation is documented at
  each definition.
* The scanner's `while i < len(lines)` loop can fail to make progress
  (its paragraph arm can consume zero lines), so the loop is modelled
  with explicit fuel; `PResult.noFuel` reports fuel exhaustion and
  `PResult.crash` models an uncaught Python exception
  (`AttributeError` from `m.group(...)` on a failed inner list match).
-/

/-- Python whitespace (`str.strip`, `\s`), restricted to ASCII:
space, tab, newline, carriage return, vertical tab, form feed. -/
def isPySpace (c : Char) : Bool :=
  c == ' ' || c == '\t' || c == '\n' || c == '\r' || c == '\x0b' || c == '\x0c'

/-- Remove trailing Python whitespace (the right half of `str.strip`). -/
def dropTrailing : List Char → List Char
  | [] => []
  | c :: t =>
    match dropTrailing t with
    | [] => if isPySpace c then [] else [c]
    | r => c :: r

/-- Python's `str.strip()`: drop leading and trailing whitespace. -/
def pyStrip (l : List Char) : List Char :=
  dropTrailing (l.dropWhile isPySpace)

/-- Truthiness of `line.strip()` negated: the line is whitespace-only.
`line.strip()` is falsy exactly when every character is whitespace. -/
def isBlank (l : List Char) : Bool :=
  l.all isPySpace

/-- The backquote character, written by code so that no backtick token
appears outside strings. -/
def bq : Char := '\x60'

/-- Python's `"ab\ncd".split(sep)` on a single separator character:
splitting the empty string gives one empty field, and every separator
occurrence opens a new field. -/
def splitOnChar (sep : Char) : List Char → List (List Char)
  | [] => [[]]
  | c :: rest =>
    match splitOnChar sep rest with
    | h :: t => if c == sep then [] :: h :: t else (c :: h) :: t
    | [] => [[c]]

/-- Model of `re.match(r"^(#{1,6})\s+(.+)$", line)`, returning
`(level, group 2)` on success.  The hash run must have length 1–6 (seven
or more hashes leave a hash after at most six consumed, which `\s+`
rejects).  After the hashes, `\s+` greedily takes the maximal whitespace
run; `(.+)$` then needs at least one character, so if nothing follows
the run, the regex backtracks and group 2 becomes the run's last
whitespace character (possible only when the run has length at least two). -/
def headingMatch (l : List Char) : Option (Nat × List Char) :=
  let k := (l.takeWhile (fun c => c == '#')).length
  if 1 ≤ k ∧ k ≤ 6 then
    let rest := l.drop k
    let sp := rest.takeWhile isPySpace
    let tail := rest.drop sp.length
    if sp.isEmpty then none
    else if !tail.isEmpty then some (k, tail)
    else if 2 ≤ sp.length then some (k, sp.drop (sp.length - 1))
    else none
  else none

/-- Model of `re.match(r"^(\*{3,}|-{3,}|_{3,})\s*$", line)`: the line is a
run of at least three copies of one of `*` `-` `_` followed by
whitespace only.  Each alternative anchors at the start, its greedy run
is maximal (no shorter run can help, since `\s*$` cannot match the run
character), so the first character decides the alternative. -/
def hrMatch (l : List Char) : Bool :=
  match l with
  | [] => false
  | c :: _ =>
    (c == '*' || c == '-' || c == '_') &&
    decide (3 ≤ (l.takeWhile (fun x => x == c)).length) &&
    (l.dropWhile (fun x => x == c)).all isPySpace

/-- Model of `line.strip().startswith("```")`. -/
def fenceGuard (l : List Char) : Bool :=
  List.isPrefixOf [bq, bq, bq] (pyStrip l)

/-- Character class `[\s\-:|]` of the table-separator regex. -/
def isSepChar (c : Char) : Bool :=
  isPySpace c || c == '-' || c == ':' || c == '|'

/-- Continuation of the separator regex after at least one class character
was consumed: succeed on a pipe, or consume one more class character. -/
def sepAfter : List Char → Bool
  | [] => false
  | c :: rest => c == '|' || (isSepChar c && sepAfter rest)

/-- `[\s\-:|]+\|` at the current position: at least one class character,
then a pipe (the remainder of the line is unconstrained). -/
def sepTail : List Char → Bool
  | [] => false
  | c :: rest => isSepChar c && sepAfter rest

/-- Model of `re.match(r"^\|?[\s\-:|]+\|", line)`: the optional leading
pipe is tried both consumed and skipped (the regex backtracks over
`\|?`), followed by `[\s\-:|]+\|`.  The pattern is not anchored at the
end, so it only constrains a prefix of the line. -/
def sepMatch : List Char → Bool
  | [] => false
  | c :: rest => (c == '|' && sepTail rest) || sepTail (c :: rest)

/-- The table-detection guard of `parse_md` (and of `_is_special_line`):
`"|" in line and i + 1 < len(lines) and re.match(r"^\|?[\s\-:|]+\|", lines[i+1])`,
with the following line passed as an `Option`. -/
def tableGuard (cur : List Char) (next? : Option (List Char)) : Bool :=
  cur.contains '|' &&
  (match next? with
   | some nl => sepMatch nl
   | none => false)

/-- Model of `_parse_table_row`: strip the line, drop one leading and one
trailing pipe if present, split on `|`, strip every cell. -/
def parseTableRow (l : List Char) : List (List Char) :=
  let s1 := pyStrip l
  let s2 := if s1.head? == some '|' then s1.tail else s1
  let s3 := if s2.getLast? == some '|' then s2.dropLast else s2
  (splitOnChar '|' s3).map pyStrip

/-- Condition of the table body-row loop:
`"|" in lines[i] and lines[i].strip()`. -/
def tableBodyB (l : List Char) : Bool :=
  l.contains '|' && !(isBlank l)

/-- Model of `re.match(r"^#{1,6}\s+", line)` used by `_is_special_line`:
one to six hashes followed by at least one whitespace character.  Note
that, unlike `headingMatch`, no text is required after the whitespace. -/
def headingSpecialB (l : List Char) : Bool :=
  let k := (l.takeWhile (fun c => c == '#')).length
  decide (1 ≤ k) && decide (k ≤ 6) &&
  (match (l.drop k).head? with
   | some c => isPySpace c
   | none => false)

/-- Model of `re.match(r"^(\s*)([-*+])\s+", line)`: optional leading
whitespace (greedy, and no backtracking can help since the marker is not
whitespace), a list marker, then at least one whitespace character. -/
def unorderedGuardB (l : List Char) : Bool :=
  match l.dropWhile isPySpace with
  | m :: w :: _ => (m == '-' || m == '*' || m == '+') && isPySpace w
  | _ => false

/-- Model of `re.match(r"^(\s*)([-*+])\s+(.+)$", line)`, returning
`(len(group 1), group 3)`.  As in `headingMatch`, `\s+` is greedy and
`(.+)$` forces a one-character backtrack when nothing follows the
whitespace run; a run of length one with nothing after it fails. -/
def unorderedInner (l : List Char) : Option (Nat × List Char) :=
  let ws := l.takeWhile isPySpace
  match l.drop ws.length with
  | m :: after =>
    if m == '-' || m == '*' || m == '+' then
      let sp := after.takeWhile isPySpace
      let tail := after.drop sp.length
      if sp.isEmpty then none
      else if !tail.isEmpty then some (ws.length, tail)
      else if 2 ≤ sp.length then some (ws.length, sp.drop (sp.length - 1))
      else none
    else none
  | [] => none

/-- Model of `re.match(r"^(\s*)\d+\.\s+", line)`: optional leading
whitespace, at least one digit, a dot, then at least one whitespace
character.  The digit run is maximal and no backtracking applies (a dot
is not a digit). -/
def orderedGuardB (l : List Char) : Bool :=
  let r := l.dropWhile isPySpace
  let ds := r.takeWhile Char.isDigit
  match r.drop ds.length with
  | d :: w :: _ => !ds.isEmpty && d == '.' && isPySpace w
  | _ => false

/-- Model of `re.match(r"^(\s*)\d+\.\s+(.+)$", line)`, returning
`(len(group 1), group 2)`; same `\s+`/`(.+)$` interaction as in
`unorderedInner`. -/
def orderedInner (l : List Char) : Option (Nat × List Char) :=
  let ws := l.takeWhile isPySpace
  let r := l.drop ws.length
  let ds := r.takeWhile Char.isDigit
  if ds.isEmpty then none
  else
    match r.drop ds.length with
    | d :: after =>
      if d == '.' then
        let sp := after.takeWhile isPySpace
        let tail := after.drop sp.length
        if sp.isEmpty then none
        else if !tail.isEmpty then some (ws.length, tail)
        else if 2 ≤ sp.length then some (ws.length, sp.drop (sp.length - 1))
        else none
      else none
    | [] => none

/-- One unordered list item as appended by `parse_md`:
`(len(m.group(1)), m.group(3).strip())`; `none` models the
`AttributeError` raised when the inner regex fails. -/
def unorderedItem (l : List Char) : Option (Nat × List Char) :=
  (unorderedInner l).map (fun p => (p.1, pyStrip p.2))

/-- One ordered list item as appended by `parse_md`:
`(len(m.group(1)), m.group(2).strip())`. -/
def orderedItem (l : List Char) : Option (Nat × List Char) :=
  (orderedInner l).map (fun p => (p.1, pyStrip p.2))

/-- Model of `_is_special_line(line, lines, i)` with the following line
passed as an `Option` (it is only consulted by the table check). -/
def specialLine (cur : List Char) (next? : Option (List Char)) : Bool :=
  headingSpecialB cur || hrMatch cur || fenceGuard cur || tableGuard cur next? ||
  unorderedGuardB cur || orderedGuardB cur

/-- Lines accumulated by the paragraph arm: consecutive lines that are
non-blank and not special (the specialness of a line consults the line
after it). -/
def paraTake : List (List Char) → List (List Char)
  | [] => []
  | l :: ls => if !isBlank l && !specialLine l ls.head? then l :: paraTake ls else []

/-- Remainder of the line list after the paragraph arm stops. -/
def paraDrop : List (List Char) → List (List Char)
  | [] => []
  | l :: ls => if !isBlank l && !specialLine l ls.head? then paraDrop ls else l :: ls

/-- The block data model of `MDBlock` in the source: a closed variant per
`kind`, with the payload shape each kind actually stores (`hr` stores an
empty string, modelled as no payload). -/
inductive MDBlock where
  | heading (level : Nat) (content : List Char)
  | hr
  | code (content : List Char)
  | table (rows : List (List (List Char)))
  | list (items : List (Nat × List Char))
  | paragraph (content : List Char)
deriving DecidableEq

/-- Result of running the scanner: a block list, an uncaught exception,
or fuel exhaustion of the model (the source loop does not always make
progress, so the model is fueled). -/
inductive PResult where
  | ok (blocks : List MDBlock)
  | crash
  | noFuel
deriving DecidableEq

/-- Prepend a block to a successful result; exceptions and fuel
exhaustion discard the blocks produced so far, as in Python. -/
def consBlock (b : MDBlock) : PResult → PResult
  | .ok bs => .ok (b :: bs)
  | r => r

/-- The scanner loop of `parse_md`, one fuel unit per iteration of the
`while i < len(lines)` loop.  The source is followed arm by arm, in
source order: blank skip, heading, horizontal rule, fenced code, table,
unordered list, ordered list, paragraph fallback. -/
def parseLoop : Nat → List (List Char) → PResult
  | 0, _ => .noFuel
  | Nat.succ fuel, lines =>
    match lines with
    | [] => .ok []
    | line :: rest =>
      if isBlank line then parseLoop fuel rest
      else
        match headingMatch line with
        | some kv => consBlock (.heading kv.1 (pyStrip kv.2)) (parseLoop fuel rest)
        | none =>
          if hrMatch line then consBlock .hr (parseLoop fuel rest)
          else if fenceGuard line then
            consBlock
              (.code (List.intercalate ['\n'] (rest.takeWhile (fun l => !fenceGuard l))))
              (parseLoop fuel ((rest.dropWhile (fun l => !fenceGuard l)).drop 1))
          else if tableGuard line rest.head? then
            consBlock
              (.table (parseTableRow line :: (rest.tail.takeWhile tableBodyB).map parseTableRow))
              (parseLoop fuel (rest.tail.dropWhile tableBodyB))
          else if unorderedGuardB line then
            match ((line :: rest).takeWhile unorderedGuardB).mapM unorderedItem with
            | some items =>
              consBlock (.list items) (parseLoop fuel ((line :: rest).dropWhile unorderedGuardB))
            | none => .crash
          else if orderedGuardB line then
            match ((line :: rest).takeWhile orderedGuardB).mapM orderedItem with
            | some items =>
              consBlock (.list items) (parseLoop fuel ((line :: rest).dropWhile orderedGuardB))
            | none => .crash
          else
            match paraTake (line :: rest) with
            | [] => parseLoop fuel (line :: rest)
            | ps =>
              consBlock (.paragraph (List.intercalate [' '] (ps.map pyStrip)))
                (parseLoop fuel (paraDrop (line :: rest)))

/-- `parse_md(text)`: split on newlines and scan, with explicit fuel. -/
def parseMD (fuel : Nat) (text : List Char) : PResult :=
  parseLoop fuel (splitOnChar '\n' text)

/-! ## Inline normalizer (`strip_inline_md`)

Each `re.sub(pattern, repl, text)` is modelled by a matcher
`List Char → Option (List Char × List Char)` returning
`(replacement, remainder after the match)` when the pattern matches at
the current position, plus a driver `subAux` that reproduces `re.sub`'s
left-to-right scan: on a match, emit the replacement and continue after
the match (replacements are not rescanned by the same rule); otherwise
copy one character.  Every pattern below consumes at least one character
on a match, so fuel equal to the string length always suffices; the
claims below only use properties that hold for every fuel value. -/

/-- Scan of `re.sub`: try the matcher at every position, left to right. -/
def subAux (m : List Char → Option (List Char × List Char)) : Nat → List Char → List Char
  | 0, s => s
  | Nat.succ fuel, s =>
    match s with
    | [] => []
    | c :: cs =>
      match m s with
      | some (rep, after) => rep ++ subAux m fuel after
      | none => c :: subAux m fuel cs

/-- One global substitution pass. -/
def subst (m : List Char → Option (List Char × List Char)) (s : List Char) : List Char :=
  subAux m s.length s

/-- Matcher of `re.sub(r"<br\s*/?>", "\n", text, flags=re.IGNORECASE)`:
`<`, `b`/`B`, `r`/`R`, a greedy whitespace run, an optional slash, `>`.
No backtracking can rescue a failure: `>` never matches a whitespace
character and `/` only matches itself. -/
def brMatch (s : List Char) : Option (List Char × List Char) :=
  match s with
  | c0 :: c1 :: c2 :: rest =>
    if c0 == '<' && (c1 == 'b' || c1 == 'B') && (c2 == 'r' || c2 == 'R') then
      match rest.drop (rest.takeWhile isPySpace).length with
      | x :: t2 =>
        if x == '/' then
          match t2 with
          | y :: after => if y == '>' then some (['\n'], after) else none
          | [] => none
        else if x == '>' then some (['\n'], t2)
        else none
      | [] => none
    else none
  | _ => none

/-- Lazy inner of `(.+?)cc` for a doubled one-character delimiter `c`:
the shortest non-empty newline-free run followed by the doubled
delimiter; returns `(inner, remainder after the closing delimiter)`. -/
def lazyInnerDouble (close : Char) : List Char → Option (List Char × List Char)
  | [] => none
  | c :: rest =>
    if c == '\n' then none
    else
      match rest with
      | d :: e :: after =>
        if d == close && e == close then some ([c], after)
        else (lazyInnerDouble close rest).map (fun p => (c :: p.1, p.2))
      | _ => none

/-- Lazy inner of `(.+?)c` for a single one-character closer `c`: the
shortest non-empty newline-free run followed by the closer. -/
def lazyInnerSingle (close : Char) : List Char → Option (List Char × List Char)
  | [] => none
  | c :: rest =>
    if c == '\n' then none
    else
      match rest with
      | d :: after =>
        if d == close then some ([c], after)
        else (lazyInnerSingle close rest).map (fun p => (c :: p.1, p.2))
      | [] => none

/-- Matcher of `re.sub(r"\*\*(.+?)\*\*", r"\1", text)`. -/
def boldStarMatch (s : List Char) : Option (List Char × List Char) :=
  match s with
  | a :: b :: rest =>
    if a == '*' && b == '*' then lazyInnerDouble '*' rest else none
  | _ => none

/-- Matcher of `re.sub(r"__(.+?)__", r"\1", text)`. -/
def boldUnderMatch (s : List Char) : Option (List Char × List Char) :=
  match s with
  | a :: b :: rest =>
    if a == '_' && b == '_' then lazyInnerDouble '_' rest else none
  | _ => none

/-- Matcher of `re.sub(r"\*(.+?)\*", r"\1", text)`. -/
def italicStarMatch (s : List Char) : Option (List Char × List Char) :=
  match s with
  | a :: rest => if a == '*' then lazyInnerSingle '*' rest else none
  | _ => none

/-- Matcher of `re.sub(r"_(.+?)_", r"\1", text)`. -/
def italicUnderMatch (s : List Char) : Option (List Char × List Char) :=
  match s with
  | a :: rest => if a == '_' then lazyInnerSingle '_' rest else none
  | _ => none

/-- Matcher of the inline-code rule (backquote-delimited `(.+?)`). -/
def codeTickMatch (s : List Char) : Option (List Char × List Char) :=
  match s with
  | a :: rest => if a == bq then lazyInnerSingle bq rest else none
  | _ => none

/-- The `\((.+?)\)` part of the link rule: the target is consumed and
discarded; returns the remainder after the closing parenthesis. -/
def linkTarget (s : List Char) : Option (List Char) :=
  match s with
  | a :: rest =>
    if a == '(' then (lazyInnerSingle ')' rest).map (fun p => p.2) else none
  | [] => none

/-- Lazy label of `\[(.+?)\]\(.+?\)` after the opening bracket: the
engine tries each closing bracket in order and, if the parenthesised
target does not follow it, extends the label across that bracket. -/
def lazyLinkLabel : List Char → Option (List Char × List Char)
  | [] => none
  | c :: rest =>
    if c == '\n' then none
    else
      match rest with
      | d :: r2 =>
        if d == ']' then
          match linkTarget r2 with
          | some after => some ([c], after)
          | none => (lazyLinkLabel rest).map (fun p => (c :: p.1, p.2))
        else (lazyLinkLabel rest).map (fun p => (c :: p.1, p.2))
      | [] => none

/-- Matcher of `re.sub(r"\[(.+?)\]\(.+?\)", r"\1", text)`. -/
def linkMatch (s : List Char) : Option (List Char × List Char) :=
  match s with
  | a :: rest => if a == '[' then lazyLinkLabel rest else none
  | _ => none

/-- Start of the literal closing tag `</a>` (case-insensitive `a`). -/
def startsCloseA (l : List Char) : Bool :=
  match l with
  | c0 :: c1 :: c2 :: c3 :: _ =>
    c0 == '<' && c1 == '/' && (c2 == 'a' || c2 == 'A') && c3 == '>'
  | _ => false

/-- Lazy `(.*?)</a>` of the anchor rule: the shortest (possibly empty)
newline-free run followed by the closing tag. -/
def closeAnchorSplit (l : List Char) : Option (List Char × List Char) :=
  if startsCloseA l then some ([], l.drop 4)
  else
    match l with
    | [] => none
    | c :: rest =>
      if c == '\n' then none
      else (closeAnchorSplit rest).map (fun p => (c :: p.1, p.2))

/-- Matcher of `re.sub(r"<a\s[^>]*?>(.*?)</a>", r"\1", text, flags=re.IGNORECASE)`:
`<`, `a`/`A`, one whitespace character, then `[^>]*?>` — which can only
stop at the first `>`, since `[^>]` cannot cross one — then the lazy
inner up to the closing tag. -/
def anchorMatch (s : List Char) : Option (List Char × List Char) :=
  match s with
  | c0 :: c1 :: w :: rest =>
    if c0 == '<' && (c1 == 'a' || c1 == 'A') && isPySpace w then
      match rest.drop (rest.takeWhile (fun c => !(c == '>'))).length with
      | g :: r3 => if g == '>' then closeAnchorSplit r3 else none
      | [] => none
    else none
  | _ => none

/-- `strip_inline_md(text)`: the eight substitutions in source order. -/
def stripInlineMD (s : List Char) : List Char :=
  subst anchorMatch (subst linkMatch (subst codeTickMatch (subst italicUnderMatch
    (subst italicStarMatch (subst boldUnderMatch (subst boldStarMatch (subst brMatch s)))))))

/-! ## Definitions written from the claims' words (for comparison with
the source-derived definitions above) -/

/-- Modelled from claim C3's words: the following line, after an optional
leading pipe, consists *only* of whitespace/`-`/`:`/`|` characters and
contains at least one pipe among them. -/
def sepLineClaim (l : List Char) : Bool :=
  let s := if l.head? == some '|' then l.tail else l
  s.all isSepChar && s.contains '|'

/-- Declarative reading of the separator regex `^\|?[\s\-:|]+\|` as it
actually behaves (amended claim C3): an optional leading pipe, then at
least one character of the class, then a pipe, all as a *prefix* of the
line — the remainder of the line is unconstrained. -/
def SepPat (l : List Char) : Prop :=
  (∃ j, 1 ≤ j ∧ (∀ c ∈ l.take j, isSepChar c = true) ∧ (l.drop j).head? = some '|') ∨
  (l.head? = some '|' ∧
    ∃ j, 1 ≤ j ∧ (∀ c ∈ l.tail.take j, isSepChar c = true) ∧ (l.tail.drop j).head? = some '|')

/-- Row-cell procedure exactly as claim C4 words it (no initial strip of
the whole line): drop one optional leading and one optional trailing
pipe, split on `|`, trim each cell. -/
def rowCellsClaim (l : List Char) : List (List Char) :=
  let s2 := if l.head? == some '|' then l.tail else l
  let s3 := if s2.getLast? == some '|' then s2.dropLast else s2
  (splitOnChar '|' s3).map pyStrip

/-- Row-cell procedure as amended (claim C4): first trim the whole line,
then drop one optional leading and one optional trailing pipe, split on
`|`, trim each cell. -/
def rowCellsAmended (l : List Char) : List (List Char) :=
  let s1 := pyStrip l
  let s2 := if s1.head? == some '|' then s1.tail else s1
  let s3 := if s2.getLast? == some '|' then s2.dropLast else s2
  (splitOnChar '|' s3).map pyStrip

/-- The delimiter characters of the inline rules: `*`, `_`, the
backquote, `[`, `<` — each substitution of `strip_inline_md` can only
fire at one of these. -/
def delimChars : List Char := ['*', '_', '[', '<', bq]

/-- Does a result contain a code block? (used to state claim C5's
counterexample). -/
def hasCodeBlock : List MDBlock → Bool
  | [] => false
  | MDBlock.code _ :: _ => true
  | _ :: bs => hasCodeBlock bs

/-! ## Basic lemmas about the string model -/

theorem dropTrailing_cons_of_not_space {c : Char} (t : List Char)
    (h : isPySpace c = false) : dropTrailing (c :: t) = c :: dropTrailing t := by
  cases hd : dropTrailing t <;> simp [dropTrailing, hd, h]

theorem dropWhile_head_false {p : Char → Bool} {l : List Char} {m : Char} {tt : List Char}
    (h : l.dropWhile p = m :: tt) : p m = false := by
  induction l with
  | nil => simp [List.dropWhile] at h
  | cons c cs ih =>
    rw [List.dropWhile_cons] at h
    by_cases hp : p c = true
    · rw [if_pos hp] at h
      exact ih h
    · rw [if_neg hp] at h
      cases h
      exact Bool.eq_false_iff.mpr hp

theorem dropWhile_eq_nil_of_blank {l : List Char} (h : isBlank l = true) :
    l.dropWhile isPySpace = [] := by
  rw [List.dropWhile_eq_nil_iff]
  intro x hx
  exact List.all_eq_true.mp h x hx

theorem isBlank_false_of_dropWhile_cons {l : List Char} {m : Char} {tt : List Char}
    (h : l.dropWhile isPySpace = m :: tt) : isBlank l = false := by
  by_contra hb
  rw [Bool.not_eq_false] at hb
  rw [dropWhile_eq_nil_of_blank hb] at h
  exact List.noConfusion h

theorem pyStrip_cons_of_dropWhile {l : List Char} {m : Char} {tt : List Char}
    (h : l.dropWhile isPySpace = m :: tt) : pyStrip l = m :: dropTrailing tt := by
  unfold pyStrip
  rw [h, dropTrailing_cons_of_not_space tt (dropWhile_head_false h)]

theorem dropWhile_cons_of_not_space {c : Char} (t : List Char) (h : isPySpace c = false) :
    (c :: t).dropWhile isPySpace = c :: t := by
  rw [List.dropWhile_cons, if_neg (by simp [h])]

theorem fenceGuard_false_of_dropWhile {l : List Char} {m : Char} {tt : List Char}
    (h : l.dropWhile isPySpace = m :: tt) (hm : ¬ m = bq) : fenceGuard l = false := by
  unfold fenceGuard
  rw [pyStrip_cons_of_dropWhile h]
  simp [List.isPrefixOf, beq_iff_eq]
  intro hmm
  exact absurd hmm.symm hm

theorem fenceGuard_false_of_blank {l : List Char} (h : isBlank l = true) :
    fenceGuard l = false := by
  unfold fenceGuard pyStrip
  rw [dropWhile_eq_nil_of_blank h]
  rfl

theorem isBlank_false_of_fence {l : List Char} (h : fenceGuard l = true) :
    isBlank l = false := by
  by_contra hb
  rw [Bool.not_eq_false] at hb
  rw [fenceGuard_false_of_blank hb] at h
  exact Bool.noConfusion h

theorem takeWhile_head {p : Char → Bool} {l : List Char}
    (h : 1 ≤ (l.takeWhile p).length) : ∃ c t, l = c :: t ∧ p c = true := by
  cases l with
  | nil => simp [List.takeWhile] at h
  | cons c t =>
    refine ⟨c, t, rfl, ?_⟩
    by_contra hp
    rw [List.takeWhile_cons, if_neg hp] at h
    simp at h

/-! ## Inversion and exclusion lemmas between the scanner's guards -/

theorem headingMatch_inv {l : List Char} {kv : Nat × List Char}
    (h : headingMatch l = some kv) :
    1 ≤ (l.takeWhile (fun c => c == '#')).length ∧
    (l.takeWhile (fun c => c == '#')).length ≤ 6 ∧
    ((l.drop (l.takeWhile (fun c => c == '#')).length).takeWhile isPySpace).isEmpty = false := by
  simp only [headingMatch] at h
  split at h
  · rename_i hk
    refine ⟨hk.1, hk.2, ?_⟩
    by_contra he
    rw [Bool.not_eq_false] at he
    rw [if_pos he] at h
    exact Option.noConfusion h
  · exact Option.noConfusion h

theorem head_hash_of_headingMatch {l : List Char} {kv : Nat × List Char}
    (h : headingMatch l = some kv) : ∃ t, l = '#' :: t := by
  obtain ⟨c, t, rfl, hc⟩ := takeWhile_head (headingMatch_inv h).1
  have hc' : c = '#' := by simpa using hc
  exact ⟨t, by rw [hc']⟩

theorem takeWhile_cons_inv {p : Char → Bool} {l : List Char} {c : Char} {t : List Char}
    (h : l.takeWhile p = c :: t) : l.head? = some c ∧ p c = true := by
  cases l with
  | nil => simp [List.takeWhile] at h
  | cons a as =>
    rw [List.takeWhile_cons] at h
    by_cases hp : p a = true
    · rw [if_pos hp] at h
      cases h
      exact ⟨rfl, hp⟩
    · rw [if_neg hp] at h
      exact List.noConfusion h

theorem headingSpecialB_of_headingMatch {l : List Char} {kv : Nat × List Char}
    (h : headingMatch l = some kv) : headingSpecialB l = true := by
  obtain ⟨h1, h2, h3⟩ := headingMatch_inv h
  unfold headingSpecialB
  rw [Bool.and_assoc, Bool.and_eq_true, Bool.and_eq_true]
  refine ⟨by simpa using h1, by simpa using h2, ?_⟩
  cases hd : (l.drop (l.takeWhile (fun c => c == '#')).length).takeWhile isPySpace with
  | nil => rw [hd] at h3; simp at h3
  | cons s ss =>
    obtain ⟨hh, hs⟩ := takeWhile_cons_inv hd
    rw [hh]
    exact hs

theorem headingMatch_none_of_fence {l : List Char} (h : fenceGuard l = true) :
    headingMatch l = none := by
  cases hm : headingMatch l with
  | none => rfl
  | some kv =>
    obtain ⟨t, rfl⟩ := head_hash_of_headingMatch hm
    have hd : ('#' :: t).dropWhile isPySpace = '#' :: t :=
      dropWhile_cons_of_not_space t (by decide)
    rw [fenceGuard_false_of_dropWhile hd (by decide)] at h
    exact Bool.noConfusion h

theorem hrMatch_head {l : List Char} (h : hrMatch l = true) :
    ∃ c t, l = c :: t ∧ (c = '*' ∨ c = '-' ∨ c = '_') := by
  cases l with
  | nil => simp [hrMatch] at h
  | cons c t =>
    refine ⟨c, t, rfl, ?_⟩
    simp only [hrMatch, Bool.and_eq_true] at h
    have := h.1.1
    simpa [or_assoc] using this

theorem fence_excludes_hr {l : List Char} (h : fenceGuard l = true) : hrMatch l = false := by
  by_contra hhr
  rw [Bool.not_eq_false] at hhr
  obtain ⟨c, t, rfl, hc⟩ := hrMatch_head hhr
  have hns : isPySpace c = false := by rcases hc with rfl | rfl | rfl <;> decide
  have hnb : ¬ c = bq := by rcases hc with rfl | rfl | rfl <;> decide
  rw [fenceGuard_false_of_dropWhile (dropWhile_cons_of_not_space t hns) hnb] at h
  exact Bool.noConfusion h

theorem parseLoop_fence_step (fuel : Nat) (line : List Char) (rest : List (List Char))
    (hf : fenceGuard line = true) :
    parseLoop (fuel + 1) (line :: rest) =
      consBlock
        (MDBlock.code (List.intercalate ['\n'] (rest.takeWhile (fun l => !fenceGuard l))))
        (parseLoop fuel ((rest.dropWhile (fun l => !fenceGuard l)).drop 1)) := by
  have hb := isBlank_false_of_fence hf
  have hh := headingMatch_none_of_fence hf
  have hhr := fence_excludes_hr hf
  simp only [parseLoop, hb, hh, hhr, hf, Bool.false_eq_true, if_false, if_true]

theorem takeWhile_two {p : Char → Bool} {l : List Char} (h : 2 ≤ (l.takeWhile p).length) :
    ∃ a b t, l = a :: b :: t ∧ p a = true ∧ p b = true := by
  obtain ⟨a, t, rfl, ha⟩ := takeWhile_head (le_trans (by norm_num) h)
  rw [List.takeWhile_cons, if_pos (by simp [ha])] at h
  simp only [List.length_cons] at h
  obtain ⟨b, t2, rfl, hb⟩ := takeWhile_head (p := p) (l := t) (by omega)
  exact ⟨a, b, t2, rfl, ha, hb⟩

theorem uo_inv {l : List Char} (hu : unorderedGuardB l = true) :
    ∃ m w rr, l.dropWhile isPySpace = m :: w :: rr ∧
      (m = '-' ∨ m = '*' ∨ m = '+') ∧ isPySpace w = true := by
  unfold unorderedGuardB at hu
  cases hd : l.dropWhile isPySpace with
  | nil => rw [hd] at hu; simp at hu
  | cons m t =>
    cases t with
    | nil => rw [hd] at hu; simp at hu
    | cons w rr =>
      rw [hd] at hu
      simp only [Bool.and_eq_true] at hu
      exact ⟨m, w, rr, rfl, by simpa [or_assoc] using hu.1, hu.2⟩

theorem isBlank_false_of_uo {l : List Char} (hu : unorderedGuardB l = true) :
    isBlank l = false := by
  obtain ⟨m, w, rr, hd, _, _⟩ := uo_inv hu
  exact isBlank_false_of_dropWhile_cons hd

theorem fence_false_of_uo {l : List Char} (hu : unorderedGuardB l = true) :
    fenceGuard l = false := by
  obtain ⟨m, w, rr, hd, hm, _⟩ := uo_inv hu
  refine fenceGuard_false_of_dropWhile hd ?_
  rcases hm with rfl | rfl | rfl <;> decide

theorem headingMatch_none_of_uo {l : List Char} (hu : unorderedGuardB l = true) :
    headingMatch l = none := by
  cases hm : headingMatch l with
  | none => rfl
  | some kv =>
    obtain ⟨t, rfl⟩ := head_hash_of_headingMatch hm
    obtain ⟨m, w, rr, hd, hmk, _⟩ := uo_inv hu
    rw [dropWhile_cons_of_not_space t (by decide)] at hd
    have : m = '#' := (List.cons.injEq _ _ _ _ ▸ hd).1.symm
    rcases hmk with rfl | rfl | rfl <;> simp at this

theorem hr_false_of_uo {l : List Char} (hu : unorderedGuardB l = true) :
    hrMatch l = false := by
  by_contra hhr
  rw [Bool.not_eq_false] at hhr
  obtain ⟨c, t, rfl, hc⟩ := hrMatch_head hhr
  have hrun : 3 ≤ ((c :: t).takeWhile (fun x => x == c)).length := by
    simp only [hrMatch, Bool.and_eq_true] at hhr
    exact of_decide_eq_true hhr.1.2
  obtain ⟨a, b, t2, heq, ha, hb⟩ := takeWhile_two (le_trans (by norm_num) hrun)
  have hns : isPySpace c = false := by rcases hc with rfl | rfl | rfl <;> decide
  obtain ⟨m, w, rr, hd, hmk, hw⟩ := uo_inv hu
  rw [dropWhile_cons_of_not_space t hns] at hd
  rw [heq] at hd
  have hbc : b = c := by simpa using hb
  have hwb : w = b := (List.cons.injEq _ _ _ _ ▸ (List.cons.injEq _ _ _ _ ▸ hd).2).1.symm
  rw [hwb, hbc] at hw
  rw [hns] at hw
  exact Bool.noConfusion hw

theorem parseLoop_unordered_step (fuel : Nat) (line : List Char) (rest : List (List Char))
    (hu : unorderedGuardB line = true) (ht : tableGuard line rest.head? = false) :
    parseLoop (fuel + 1) (line :: rest) =
      match ((line :: rest).takeWhile unorderedGuardB).mapM unorderedItem with
      | some items =>
        consBlock (MDBlock.list items) (parseLoop fuel ((line :: rest).dropWhile unorderedGuardB))
      | none => PResult.crash := by
  have hb := isBlank_false_of_uo hu
  have hh := headingMatch_none_of_uo hu
  have hhr := hr_false_of_uo hu
  have hf := fence_false_of_uo hu
  simp only [parseLoop, hb, hh, hhr, hf, ht, hu, Bool.false_eq_true, if_false, if_true]

theorem specialLine_parts {cur : List Char} {next? : Option (List Char)}
    (h : specialLine cur next? = false) :
    headingSpecialB cur = false ∧ hrMatch cur = false ∧ fenceGuard cur = false ∧
    tableGuard cur next? = false ∧ unorderedGuardB cur = false ∧ orderedGuardB cur = false := by
  simp only [specialLine, Bool.or_eq_false_iff] at h
  exact ⟨h.1.1.1.1.1, h.1.1.1.1.2, h.1.1.1.2, h.1.1.2, h.1.2, h.2⟩

theorem headingMatch_none_of_specialB_false {l : List Char} (h : headingSpecialB l = false) :
    headingMatch l = none := by
  cases hm : headingMatch l with
  | none => rfl
  | some kv => rw [headingSpecialB_of_headingMatch hm] at h; exact Bool.noConfusion h

theorem parseLoop_para_step (fuel : Nat) (line : List Char) (rest : List (List Char))
    (hb : isBlank line = false) (hs : specialLine line rest.head? = false) :
    parseLoop (fuel + 1) (line :: rest) =
      consBlock (MDBlock.paragraph (List.intercalate [' '] ((paraTake (line :: rest)).map pyStrip)))
        (parseLoop fuel (paraDrop (line :: rest))) := by
  obtain ⟨h1, h2, h3, h4, h5, h6⟩ := specialLine_parts hs
  have hh := headingMatch_none_of_specialB_false h1
  have hpt : paraTake (line :: rest) = line :: paraTake rest := by
    simp [paraTake, hb, hs]
  have hpd : paraDrop (line :: rest) = paraDrop rest := by
    simp [paraDrop, hb, hs]
  simp only [parseLoop, hb, hh, h2, h3, h4, h5, h6, hpt, hpd,
    Bool.false_eq_true, if_false, if_true]

/-! ## Declarative characterization of the table-separator regex -/

theorem sepAfter_iff (l : List Char) : sepAfter l = true ↔
    ∃ j, (∀ c ∈ l.take j, isSepChar c = true) ∧ (l.drop j).head? = some '|' := by
  induction l with
  | nil => simp [sepAfter]
  | cons c rest ih =>
    simp only [sepAfter, Bool.or_eq_true, Bool.and_eq_true, beq_iff_eq, ih]
    constructor
    · rintro (rfl | ⟨hsc, j, htake, hget⟩)
      · exact ⟨0, by simp, by simp⟩
      · refine ⟨j + 1, ?_, by simpa [List.drop_succ_cons] using hget⟩
        intro x hx
        rw [List.take_succ_cons] at hx
        rcases List.mem_cons.mp hx with rfl | hx2
        · exact hsc
        · exact htake x hx2
    · rintro ⟨j, htake, hget⟩
      cases j with
      | zero =>
        left
        simpa using hget
      | succ j =>
        right
        rw [List.take_succ_cons] at htake
        rw [List.drop_succ_cons] at hget
        exact ⟨htake c (by simp), j, fun x hx => htake x (by simp [hx]), hget⟩

theorem sepTail_iff (l : List Char) : sepTail l = true ↔
    ∃ j, 1 ≤ j ∧ (∀ c ∈ l.take j, isSepChar c = true) ∧ (l.drop j).head? = some '|' := by
  cases l with
  | nil => simp [sepTail]
  | cons c rest =>
    simp only [sepTail, Bool.and_eq_true, sepAfter_iff]
    constructor
    · rintro ⟨hc, j, htake, hget⟩
      refine ⟨j + 1, by omega, ?_, by simpa [List.drop_succ_cons] using hget⟩
      intro x hx
      rw [List.take_succ_cons] at hx
      rcases List.mem_cons.mp hx with rfl | hx2
      · exact hc
      · exact htake x hx2
    · rintro ⟨j, hj, htake, hget⟩
      cases j with
      | zero => omega
      | succ j =>
        rw [List.take_succ_cons] at htake
        rw [List.drop_succ_cons] at hget
        exact ⟨htake c (by simp), j, fun x hx => htake x (by simp [hx]), hget⟩

theorem sepMatch_iff_SepPat (l : List Char) : sepMatch l = true ↔ SepPat l := by
  cases l with
  | nil => simp [sepMatch, SepPat]
  | cons c rest =>
    simp only [sepMatch, Bool.or_eq_true, Bool.and_eq_true, beq_iff_eq, SepPat,
      List.head?_cons, List.tail_cons, Option.some.injEq, sepTail_iff]
    constructor
    · rintro (⟨rfl, hj⟩ | hj)
      · exact Or.inr ⟨rfl, hj⟩
      · exact Or.inl hj
    · rintro (hj | ⟨rfl, hj⟩)
      · exact Or.inr hj
      · exact Or.inl ⟨rfl, hj⟩

/-! ## Identity lemmas for the inline substitutions -/

theorem subAux_id {m : List Char → Option (List Char × List Char)} {s : List Char}
    (h : ∀ i, m (s.drop i) = none) : ∀ fuel, subAux m fuel s = s := by
  intro fuel
  induction fuel generalizing s with
  | zero => rfl
  | succ f ih =>
    cases s with
    | nil => rfl
    | cons c cs =>
      have h0 : m (c :: cs) = none := by simpa using h 0
      simp only [subAux, h0]
      exact congrArg (c :: ·) (ih (fun i => by simpa [List.drop_succ_cons] using h (i + 1)))

theorem subst_id {m : List Char → Option (List Char × List Char)} {s : List Char}
    (h : ∀ i, m (s.drop i) = none) : subst m s = s :=
  subAux_id h s.length

theorem noMatchAt_cons {m : List Char → Option (List Char × List Char)} {c : Char}
    {s : List Char} (h0 : m (c :: s) = none) (hs : ∀ i, m (s.drop i) = none) :
    ∀ i, m ((c :: s).drop i) = none := by
  intro i
  cases i with
  | zero => simpa using h0
  | succ j => simpa [List.drop_succ_cons] using hs j

theorem noMatchAt_of_mem {m : List Char → Option (List Char × List Char)} {trig : Char}
    (hnil : m [] = none) (hhead : ∀ c cs, (c == trig) = false → m (c :: cs) = none)
    {s : List Char} (hs : ∀ c ∈ s, (c == trig) = false) : ∀ i, m (s.drop i) = none := by
  intro i
  cases hd : s.drop i with
  | nil => exact hnil
  | cons c cs =>
    refine hhead c cs (hs c ?_)
    exact List.drop_subset i s (hd ▸ List.mem_cons_self c cs)

theorem brMatch_nil : brMatch [] = none := rfl

theorem brMatch_head {c : Char} (cs : List Char) (h : (c == '<') = false) :
    brMatch (c :: cs) = none := by
  match cs with
  | [] => rfl
  | [c1] => rfl
  | c1 :: c2 :: rest => simp [brMatch, h]

theorem brMatch_second {c0 c1 : Char} (cs : List Char)
    (hb : (c1 == 'b') = false) (hB : (c1 == 'B') = false) :
    brMatch (c0 :: c1 :: cs) = none := by
  match cs with
  | [] => rfl
  | c2 :: rest => simp [brMatch, hb, hB]

theorem boldStarMatch_nil : boldStarMatch [] = none := rfl

theorem boldStarMatch_head {c : Char} (cs : List Char) (h : (c == '*') = false) :
    boldStarMatch (c :: cs) = none := by
  match cs with
  | [] => rfl
  | c1 :: rest => simp [boldStarMatch, h]

theorem boldUnderMatch_nil : boldUnderMatch [] = none := rfl

theorem boldUnderMatch_head {c : Char} (cs : List Char) (h : (c == '_') = false) :
    boldUnderMatch (c :: cs) = none := by
  match cs with
  | [] => rfl
  | c1 :: rest => simp [boldUnderMatch, h]

theorem italicStarMatch_nil : italicStarMatch [] = none := rfl

theorem italicStarMatch_head {c : Char} (cs : List Char) (h : (c == '*') = false) :
    italicStarMatch (c :: cs) = none := by
  simp [italicStarMatch, h]

theorem italicUnderMatch_nil : italicUnderMatch [] = none := rfl

theorem italicUnderMatch_head {c : Char} (cs : List Char) (h : (c == '_') = false) :
    italicUnderMatch (c :: cs) = none := by
  simp [italicUnderMatch, h]

theorem codeTickMatch_nil : codeTickMatch [] = none := rfl

theorem codeTickMatch_head {c : Char} (cs : List Char) (h : (c == bq) = false) :
    codeTickMatch (c :: cs) = none := by
  simp [codeTickMatch, h]

theorem linkMatch_nil : linkMatch [] = none := rfl

theorem linkMatch_head {c : Char} (cs : List Char) (h : (c == '[') = false) :
    linkMatch (c :: cs) = none := by
  simp [linkMatch, h]

theorem anchorMatch_nil : anchorMatch [] = none := rfl

theorem anchorMatch_head {c : Char} (cs : List Char) (h : (c == '<') = false) :
    anchorMatch (c :: cs) = none := by
  match cs with
  | [] => rfl
  | [c1] => rfl
  | c1 :: c2 :: rest => simp [anchorMatch, h]

theorem anchorMatch_second {c0 c1 : Char} (cs : List Char)
    (ha : (c1 == 'a') = false) (hA : (c1 == 'A') = false) :
    anchorMatch (c0 :: c1 :: cs) = none := by
  match cs with
  | [] => rfl
  | c2 :: rest => simp [anchorMatch, ha, hA]

theorem anchorMatch_nospace {c0 c1 c2 : Char} (cs : List Char) (h : isPySpace c2 = false) :
    anchorMatch (c0 :: c1 :: c2 :: cs) = none := by
  simp [anchorMatch, h]

theorem delim_facts {s : List Char} (h : s.all (fun c => !delimChars.contains c) = true) :
    ∀ c ∈ s, (c == '*') = false ∧ (c == '_') = false ∧ (c == '[') = false ∧
      (c == '<') = false ∧ (c == bq) = false := by
  intro c hc
  have := List.all_eq_true.mp h c hc
  simpa [delimChars, List.contains_cons] using this

theorem stripInlineMD_id {s : List Char}
    (h : s.all (fun c => !delimChars.contains c) = true) : stripInlineMD s = s := by
  have hd := delim_facts h
  unfold stripInlineMD
  rw [subst_id (noMatchAt_of_mem brMatch_nil (fun c cs hh => brMatch_head cs hh)
        (fun c hc => (hd c hc).2.2.2.1)),
    subst_id (noMatchAt_of_mem boldStarMatch_nil (fun c cs hh => boldStarMatch_head cs hh)
        (fun c hc => (hd c hc).1)),
    subst_id (noMatchAt_of_mem boldUnderMatch_nil (fun c cs hh => boldUnderMatch_head cs hh)
        (fun c hc => (hd c hc).2.1)),
    subst_id (noMatchAt_of_mem italicStarMatch_nil (fun c cs hh => italicStarMatch_head cs hh)
        (fun c hc => (hd c hc).1)),
    subst_id (noMatchAt_of_mem italicUnderMatch_nil (fun c cs hh => italicUnderMatch_head cs hh)
        (fun c hc => (hd c hc).2.1)),
    subst_id (noMatchAt_of_mem codeTickMatch_nil (fun c cs hh => codeTickMatch_head cs hh)
        (fun c hc => (hd c hc).2.2.2.2)),
    subst_id (noMatchAt_of_mem linkMatch_nil (fun c cs hh => linkMatch_head cs hh)
        (fun c hc => (hd c hc).2.2.1)),
    subst_id (noMatchAt_of_mem anchorMatch_nil (fun c cs hh => anchorMatch_head cs hh)
        (fun c hc => (hd c hc).2.2.2.1))]

theorem noBr_closeTag : ∀ i, brMatch (("</a>".toList).drop i) = none := by
  have e0 : ∀ i, brMatch (([] : List Char).drop i) = none := fun i => by
    rw [List.drop_nil]; exact brMatch_nil
  have h1 := noMatchAt_cons (c := '>') (brMatch_head [] (by decide)) e0
  have h2 := noMatchAt_cons (c := 'a') (brMatch_head _ (by decide)) h1
  have h3 := noMatchAt_cons (c := '/') (brMatch_head _ (by decide)) h2
  have h4 := noMatchAt_cons (c := '<') (brMatch_second _ (by decide) (by decide)) h3
  exact h4

theorem noBr_middle (t : List Char) (ht : ∀ c ∈ t, (c == '<') = false) :
    ∀ i, brMatch ((t ++ "</a>".toList).drop i) = none := by
  induction t with
  | nil => simpa using noBr_closeTag
  | cons c ts ih =>
    have h0 : brMatch (c :: (ts ++ "</a>".toList)) = none :=
      brMatch_head _ (ht c (by simp))
    have := noMatchAt_cons h0 (ih (fun x hx => ht x (by simp [hx])))
    simpa using this

theorem noBr_wrap (t : List Char) (ht : ∀ c ∈ t, (c == '<') = false) :
    ∀ i, brMatch (("<a>".toList ++ t ++ "</a>".toList).drop i) = none := by
  have h1 := noBr_middle t ht
  have h2 := noMatchAt_cons (c := '>') (brMatch_head _ (by decide)) h1
  have h3 := noMatchAt_cons (c := 'a') (brMatch_head _ (by decide)) h2
  have h4 := noMatchAt_cons (c := '<') (brMatch_second _ (by decide) (by decide)) h3
  exact h4

theorem noAnchor_closeTag : ∀ i, anchorMatch (("</a>".toList).drop i) = none := by
  have e0 : ∀ i, anchorMatch (([] : List Char).drop i) = none := fun i => by
    rw [List.drop_nil]; exact anchorMatch_nil
  have h1 := noMatchAt_cons (c := '>') (anchorMatch_head [] (by decide)) e0
  have h2 := noMatchAt_cons (c := 'a') (anchorMatch_head _ (by decide)) h1
  have h3 := noMatchAt_cons (c := '/') (anchorMatch_head _ (by decide)) h2
  have h4 := noMatchAt_cons (c := '<') (anchorMatch_second _ (by decide) (by decide)) h3
  exact h4

theorem noAnchor_middle (t : List Char) (ht : ∀ c ∈ t, (c == '<') = false) :
    ∀ i, anchorMatch ((t ++ "</a>".toList).drop i) = none := by
  induction t with
  | nil => simpa using noAnchor_closeTag
  | cons c ts ih =>
    have h0 : anchorMatch (c :: (ts ++ "</a>".toList)) = none :=
      anchorMatch_head _ (ht c (by simp))
    have := noMatchAt_cons h0 (ih (fun x hx => ht x (by simp [hx])))
    simpa using this

theorem noAnchor_wrap (t : List Char) (ht : ∀ c ∈ t, (c == '<') = false) :
    ∀ i, anchorMatch (("<a>".toList ++ t ++ "</a>".toList).drop i) = none := by
  have h1 := noAnchor_middle t ht
  have h2 := noMatchAt_cons (c := '>') (anchorMatch_head _ (by decide)) h1
  have h3 := noMatchAt_cons (c := 'a') (anchorMatch_head _ (by decide)) h2
  have h4 := noMatchAt_cons (c := '<') (anchorMatch_nospace _ (by decide)) h3
  exact h4

theorem wrap_mem_cases {t : List Char} {c : Char}
    (hc : c ∈ "<a>".toList ++ t ++ "</a>".toList) :
    c ∈ t ∨ c = '<' ∨ c = 'a' ∨ c = '>' ∨ c = '/' := by
  have h1 : "<a>".toList = ['<', 'a', '>'] := rfl
  have h2 : "</a>".toList = ['<', '/', 'a', '>'] := rfl
  rw [h1, h2] at hc
  simp only [List.mem_append, List.mem_cons, List.not_mem_nil, or_false] at hc
  tauto

theorem stripInlineMD_wrap_id (t : List Char)
    (h : t.all (fun c => !delimChars.contains c) = true) :
    stripInlineMD ("<a>".toList ++ t ++ "</a>".toList) = "<a>".toList ++ t ++ "</a>".toList := by
  have hd := delim_facts h
  have hlt : ∀ c ∈ t, (c == '<') = false := fun c hc => (hd c hc).2.2.2.1
  have hS : ∀ trig : Char, (('<' == trig) = false) → (('a' == trig) = false) →
      (('>' == trig) = false) → (('/' == trig) = false) →
      (∀ c ∈ t, (c == trig) = false) →
      ∀ c ∈ ("<a>".toList ++ t ++ "</a>".toList), (c == trig) = false := by
    intro trig h1 h2 h3 h4 h5 c hc
    rcases wrap_mem_cases hc with hin | rfl | rfl | rfl | rfl
    · exact h5 c hin
    · exact h1
    · exact h2
    · exact h3
    · exact h4
  unfold stripInlineMD
  rw [subst_id (noBr_wrap t hlt),
    subst_id (noMatchAt_of_mem boldStarMatch_nil (fun c cs hh => boldStarMatch_head cs hh)
      (hS '*' (by decide) (by decide) (by decide) (by decide) (fun c hc => (hd c hc).1))),
    subst_id (noMatchAt_of_mem boldUnderMatch_nil (fun c cs hh => boldUnderMatch_head cs hh)
      (hS '_' (by decide) (by decide) (by decide) (by decide) (fun c hc => (hd c hc).2.1))),
    subst_id (noMatchAt_of_mem italicStarMatch_nil (fun c cs hh => italicStarMatch_head cs hh)
      (hS '*' (by decide) (by decide) (by decide) (by decide) (fun c hc => (hd c hc).1))),
    subst_id (noMatchAt_of_mem italicUnderMatch_nil (fun c cs hh => italicUnderMatch_head cs hh)
      (hS '_' (by decide) (by decide) (by decide) (by decide) (fun c hc => (hd c hc).2.1))),
    subst_id (noMatchAt_of_mem codeTickMatch_nil (fun c cs hh => codeTickMatch_head cs hh)
      (hS bq (by decide) (by decide) (by decide) (by decide) (fun c hc => (hd c hc).2.2.2.2))),
    subst_id (noMatchAt_of_mem linkMatch_nil (fun c cs hh => linkMatch_head cs hh)
      (hS '[' (by decide) (by decide) (by decide) (by decide) (fun c hc => (hd c hc).2.2.1))),
    subst_id (noAnchor_wrap t hlt)]

/-! ## The claims -/

/-- Claim C1 (refuted by the code): the claim says `parse_md` never fails
on any input.  In fact the single-line document `"- "` (dash, space)
passes the unordered-list loop guard `^(\s*)([-*+])\s+` but fails the
inner regex `^(\s*)([-*+])\s+(.+)$`, so `m.group(1)` raises
`AttributeError`; the model returns `crash` there. -/
theorem claim1_parse_raises_on_bare_dash :
    parseMD 2 ("- ".toList) = PResult.crash := by decide

/-- Claim C2 (refuted by the code): the claim says `parse_md` terminates
on every input.  On the single-line document `"# "` (hash, space) the
heading rule's regex `^(#{1,6})\s+(.+)$` fails (nothing satisfies `(.+)`)
while `_is_special_line`'s prefix regex `^#{1,6}\s+` succeeds, so the
paragraph arm accumulates zero lines, never advances the cursor, and the
scan loops forever: the model exhausts any amount of fuel. -/
theorem claim2_parse_loops_on_bare_hash :
    ∀ fuel : Nat, parseMD fuel ("# ".toList) = PResult.noFuel := by
  intro fuel
  have h : ∀ f, parseLoop f ["# ".toList] = PResult.noFuel := by
    intro f
    induction f with
    | zero => rfl
    | succ g ih =>
      have hstep : parseLoop (g + 1) ["# ".toList] = parseLoop g ["# ".toList] := rfl
      rw [hstep, ih]
  have hs : splitOnChar '\n' ("# ".toList) = ["# ".toList] := by decide
  unfold parseMD
  rw [hs]
  exact h fuel

/-- Claim C3, counterexample: with the separator pattern read as the
claim words it — after an optional leading pipe the following line
consists *only* of whitespace/`-`/`:`/`|` characters — the line
`"| - | x"` is not a separator (it contains `x`), yet the code's
unanchored regex accepts it and `parse_md` emits a table. -/
theorem claim3_counterexample :
    tableGuard ("a|b".toList) (some ("| - | x".toList)) = true ∧
    sepLineClaim ("| - | x".toList) = false ∧
    parseMD 5 ("a|b\n| - | x".toList) =
      PResult.ok [MDBlock.table [["a".toList, "b".toList]]] := by decide

/-- Claim C3 as amended: `parse_md` recognizes a table at the current
line exactly when that line contains a pipe and a following line exists
whose *prefix* matches: optional leading pipe, one or more
whitespace/`-`/`:`/`|` characters, then a pipe — the remainder of that
line is unconstrained.  Consequently a trailing pipe-containing line at
end-of-input (no following line at all) is a paragraph, not a table. -/
theorem claim3_separator_prefix_amended :
    (∀ cur nl : List Char,
      tableGuard cur (some nl) = true ↔ cur.contains '|' = true ∧ SepPat nl) ∧
    (∀ cur : List Char, tableGuard cur none = false) ∧
    parseMD 5 ("x | y".toList) = PResult.ok [MDBlock.paragraph ("x | y".toList)] := by
  refine ⟨?_, ?_, by decide⟩
  · intro cur nl
    rw [show tableGuard cur (some nl) = (cur.contains '|' && sepMatch nl) from rfl,
      Bool.and_eq_true, sepMatch_iff_SepPat]
  · intro cur
    simp [tableGuard]

/-- Claim C4, counterexample: the claim omits `_parse_table_row`'s
initial strip of the whole line.  On the header line `" | A | B |"`
(leading space) the claim's procedure keeps the leading pipe (the line
does not start with `|`) and yields `["", "A", "B"]`, while the code
strips first and yields `["A", "B"]`. -/
theorem claim4_counterexample :
    parseMD 5 (" | A | B |\n| - | - |".toList) =
      PResult.ok [MDBlock.table [["A".toList, "B".toList]]] ∧
    rowCellsClaim (" | A | B |".toList) = [[], "A".toList, "B".toList] ∧
    parseTableRow (" | A | B |".toList) ≠ rowCellsClaim (" | A | B |".toList) := by decide

/-- Claim C4 as amended: a table-row line is first trimmed of
surrounding whitespace, then one optional leading and one optional
trailing pipe are removed, the result is split on `|` and each cell is
trimmed; the three-line example parses to the claimed table. -/
theorem claim4_row_cells_amended :
    (∀ l : List Char, parseTableRow l = rowCellsAmended l) ∧
    parseMD 5 ("| A | B |\n| - | - |\n| 1 | 2 |".toList) =
      PResult.ok [MDBlock.table [["A".toList, "B".toList], ["1".toList, "2".toList]]] :=
  ⟨fun _ => rfl, by decide⟩

/-- Claim C5, counterexample: the claim quantifies over every input
*containing* a fence-prefixed line, but such a line can be consumed by
an earlier construct.  Here `"``` |x"` (trimmed form starts with three
backquotes) is swallowed as a table body row, and the parse emits no
code block at all. -/
theorem claim5_counterexample :
    fenceGuard ("``` |x".toList) = true ∧
    parseMD 10 ("a|b\n|-|\n``` |x\nfoo".toList) =
      PResult.ok [MDBlock.table [["a".toList, "b".toList], ["```".toList, "x".toList]],
        MDBlock.paragraph ("foo".toList)] ∧
    hasCodeBlock [MDBlock.table [["a".toList, "b".toList], ["```".toList, "x".toList]],
        MDBlock.paragraph ("foo".toList)] = false := by decide

/-- Claim C5 as amended: whenever the *scanner's cursor reaches* a line
whose trimmed form starts with three backquotes, it emits a code block
whose content is exactly the subsequent lines joined with newline,
captured verbatim, up to but excluding the next fence-prefixed line
(which is consumed), or up to end-of-input if none exists. -/
theorem claim5_fenced_code_amended (fuel : Nat) (line : List Char) (rest : List (List Char))
    (hf : fenceGuard line = true) :
    parseLoop (fuel + 1) (line :: rest) =
      consBlock
        (MDBlock.code (List.intercalate ['\n'] (rest.takeWhile (fun l => !fenceGuard l))))
        (parseLoop fuel ((rest.dropWhile (fun l => !fenceGuard l)).drop 1)) :=
  parseLoop_fence_step fuel line rest hf

/-- Witness for C5's amended theorem at a concrete input: the fence
captures a heading-looking line and a blank line verbatim. -/
theorem claim5_fenced_code_amended_witness :
    fenceGuard ("```".toList) = true ∧
    parseLoop 4 ["```".toList, "# not a heading".toList, "".toList, "x".toList, "```".toList] =
      consBlock
        (MDBlock.code (List.intercalate ['\n']
          ((["# not a heading".toList, "".toList, "x".toList, "```".toList]).takeWhile
            (fun l => !fenceGuard l))))
        (parseLoop 3 (((["# not a heading".toList, "".toList, "x".toList,
          "```".toList]).dropWhile (fun l => !fenceGuard l)).drop 1)) :=
  ⟨by decide, claim5_fenced_code_amended 3 _ _ (by decide)⟩

/-- Claim C6 (confirmed): a line can never match both the unordered- and
the ordered-list pattern (the first non-blank character would have to be
both a marker and a digit), so list styles are never mixed in one block;
`"- a\n- b\n1. c"` parses to an unordered block followed by an ordered
one. -/
theorem claim6_list_style_segmentation :
    (∀ l : List Char, (unorderedGuardB l && orderedGuardB l) = false) ∧
    parseMD 5 ("- a\n- b\n1. c".toList) =
      PResult.ok [MDBlock.list [(0, "a".toList), (0, "b".toList)],
        MDBlock.list [(0, "c".toList)]] := by
  refine ⟨?_, by decide⟩
  intro l
  cases hu : unorderedGuardB l with
  | false => rfl
  | true =>
    obtain ⟨m, w, rr, hd, hm, hw⟩ := uo_inv hu
    have hdig : m.isDigit = false := by rcases hm with rfl | rfl | rfl <;> decide
    simp [orderedGuardB, hd, List.takeWhile_cons, hdig]

/-- Claim C7 (confirmed): when the unordered-list guard matches the
current line and no earlier rule (in the fixed order heading, hr,
fence, table) claims it — of which only the table guard is not already
excluded by the unordered pattern itself — the scanner takes the
unordered arm, never the ordered one; in particular `"- 3. item"` is one
unordered item with text `"3. item"` (the ordered rule never sees it). -/
theorem claim7_precedence_unordered_before_ordered :
    (∀ (fuel : Nat) (line : List Char) (rest : List (List Char)),
      unorderedGuardB line = true → tableGuard line rest.head? = false →
      parseLoop (fuel + 1) (line :: rest) =
        match ((line :: rest).takeWhile unorderedGuardB).mapM unorderedItem with
        | some items =>
          consBlock (MDBlock.list items)
            (parseLoop fuel ((line :: rest).dropWhile unorderedGuardB))
        | none => PResult.crash) ∧
    unorderedGuardB ("- 3. item".toList) = true ∧
    parseMD 5 ("- 3. item".toList) =
      PResult.ok [MDBlock.list [(0, "3. item".toList)]] :=
  ⟨parseLoop_unordered_step, by decide, by decide⟩

/-- Claim C8, counterexample: the paragraph arm strips each accumulated
line before joining with single spaces, which the claim omits: on
`"a \n b"` the code yields the paragraph `"a b"`, not the plain
space-join `"a   b"` of the raw lines. -/
theorem claim8_counterexample :
    parseMD 5 ("a \n b".toList) = PResult.ok [MDBlock.paragraph ("a b".toList)] ∧
    List.intercalate [' '] ["a ".toList, " b".toList] ≠ "a b".toList := by decide

/-- Claim C8 as amended: at a non-blank, non-special line the paragraph
fallback accumulates the maximal run of consecutive non-blank lines that
are not special (heading-prefix, hr, fence-open, table-head with its
lookahead, or list item of either style), strips each accumulated line,
joins them with single spaces, and resumes after the run; the claim's
own boundary example holds. -/
theorem claim8_paragraph_amended :
    (∀ (fuel : Nat) (line : List Char) (rest : List (List Char)),
      isBlank line = false → specialLine line rest.head? = false →
      parseLoop (fuel + 1) (line :: rest) =
        consBlock
          (MDBlock.paragraph (List.intercalate [' '] ((paraTake (line :: rest)).map pyStrip)))
          (parseLoop fuel (paraDrop (line :: rest)))) ∧
    parseMD 5 ("line one\n# Heading".toList) =
      PResult.ok [MDBlock.paragraph ("line one".toList),
        MDBlock.heading 1 ("Heading".toList)] :=
  ⟨parseLoop_para_step, by decide⟩

/-- Claim C9 (confirmed): on text without any of the inline delimiter
characters `*` `_` backquote `[` `<`, `strip_inline_md` is the identity,
hence idempotent. -/
theorem claim9_normalize_idempotent (s : List Char)
    (h : s.all (fun c => !delimChars.contains c) = true) :
    stripInlineMD (stripInlineMD s) = stripInlineMD s := by
  rw [stripInlineMD_id h, stripInlineMD_id h]

/-- Witness for C9 at a concrete delimiter-free string. -/
theorem claim9_normalize_idempotent_witness :
    ("plain text".toList).all (fun c => !delimChars.contains c) = true ∧
    stripInlineMD (stripInlineMD ("plain text".toList)) = stripInlineMD ("plain text".toList) :=
  ⟨by decide, claim9_normalize_idempotent _ (by decide)⟩

/-- Claim C10 (confirmed): the anchor rule requires whitespace after the
tag name (`<a\s...`), so an attribute-less `<a>inner</a>` — with `inner`
free of `*` `_` backquote `[` `<` — is returned unchanged by
`strip_inline_md`. -/
theorem claim10_anchor_not_stripped (t : List Char)
    (h : t.all (fun c => !delimChars.contains c) = true) :
    stripInlineMD ("<a>".toList ++ t ++ "</a>".toList) =
      "<a>".toList ++ t ++ "</a>".toList :=
  stripInlineMD_wrap_id t h

/-- Witness for C10 at a concrete anchor-wrapped string. -/
theorem claim10_anchor_not_stripped_witness :
    ("hello".toList).all (fun c => !delimChars.contains c) = true ∧
    stripInlineMD ("<a>".toList ++ "hello".toList ++ "</a>".toList) =
      "<a>".toList ++ "hello".toList ++ "</a>".toList :=
  ⟨by decide, claim10_anchor_not_stripped _ (by decide)⟩
